import Mathlib

/-!
Shallow embedding of the Backeum donation component (src/src/collection.rs and
src/src/repository.rs).

Modelling conventions:
* Scrypto `Decimal` values (payment amounts, `donated`, `royalty_amount`) are
  embedded as `ℚ`; bucket arithmetic is exact rational arithmetic.
* The coarse creation date produced by `generate_created_string`
  (`format!("{}-{}-{}", year, month, day_of_month)`) is embedded structurally
  as a `Date` record; rendering it to the stored string is `Date.render`.
* The non-fungibles managed by the shared trophy resource manager are a store
  of `(id, TrophyData)` pairs with a fresh-id counter; `mint_ruid_non_fungible`
  appends a record under the counter, `update_non_fungible_data` rewrites one
  named field of an existing record, `burn` removes records.
* A transaction abort (failed assertion, failed proof check, `unwrap` panic,
  missing non-fungible id) is `Option.none` / `Except.error`: the substrate
  rolls the whole transaction back, so an aborted call leaves every state
  component as it was before the call.
-/

/-- Coarse year-month-day creation date (the payload of the `created` string). -/
structure Date where
  year : Nat
  month : Nat
  day : Nat
deriving DecidableEq, Repr

/-- Rendering of `generate_created_string` / the merge-path
`generate_created_string(earliest_created)`: `format!("{}-{}-{}", y, m, d)`. -/
def Date.render (d : Date) : String :=
  toString d.year ++ "-" ++ toString d.month ++ "-" ++ toString d.day

/-- Modelled from the spec: `util.rs` (`parse_created_string`) and the
`UtcDateTime`/`Instant` comparison are not under `src/`; the spec says merge
tracks the minimum created date "by parsing each record's stored date string
back into a comparable point-in-time value". Chronological order on
year-month-day calendar dates is lexicographic order on the triple, and the
source compares with `TimeComparisonOperator::Lt` (strict less-than). -/
def Date.ltb (a b : Date) : Bool :=
  decide (a.year < b.year ∨ (a.year = b.year ∧
    (a.month < b.month ∨ (a.month = b.month ∧ a.day < b.day))))

/-- `a` is chronologically no later than `b`. -/
def Date.leb (a b : Date) : Bool := !(Date.ltb b a)

/-- The non-fungible data of one trophy (struct `TrophyData` in
`src/data.rs`, field-for-field as read and written by `collection.rs` and
`repository.rs`; `created` is kept structurally, see `Date.render`). -/
structure TrophyData where
  name : String
  info_url : String
  collection_id : String
  created : Date
  donated : ℚ
  key_image_url : String
deriving DecidableEq, Repr

/-- `generate_url` from `collection.rs`:
`format!("{}/nft/collection/{}?donated={}&created={}", base_path, collection_id, donated, created)`.
The source takes `created` already rendered to a string; here rendering happens
at the call boundary via `Date.render`. -/
def generate_url (base_path : String) (donated : ℚ) (created : Date)
    (collection_id : String) : String :=
  base_path ++ "/nft/collection/" ++ collection_id ++ "?donated=" ++
    toString donated ++ "&created=" ++ Date.render created

/-- The state of the shared trophy resource manager: the minted non-fungibles
keyed by local id, plus the fresh-id source for RUID minting. -/
structure NFStore where
  nextId : Nat
  records : List (Nat × TrophyData)
deriving DecidableEq, Repr

/-- `get_non_fungible_data`: the record stored under `id` (first match). -/
def NFStore.lookup (st : NFStore) (id : Nat) : Option TrophyData :=
  (st.records.find? (fun p => p.1 = id)).map Prod.snd

/-- `update_non_fungible_data`: rewrite the record stored under `id` by `f`
(in the source, `f` always overwrites one named field with a precomputed
value), leaving every other record untouched. -/
def NFStore.update (st : NFStore) (id : Nat) (f : TrophyData → TrophyData) :
    NFStore :=
  { st with records := st.records.map (fun p => if p.1 = id then (p.1, f p.2) else p) }

/-- `mint_ruid_non_fungible`: mint `data` under a fresh id at the end of the
store, returning the new id. -/
def NFStore.mint (st : NFStore) (data : TrophyData) : Nat × NFStore :=
  (st.nextId, { nextId := st.nextId + 1, records := st.records ++ [(st.nextId, data)] })

/-- The mutable fields of the `Collection` component that the modelled methods
touch: the custody vault balance (`donations`), the collection identity and
the per-collection royalty constant, and the user strings used to build the
minted data. The minter badge and resource-manager handles are capability
plumbing with no data content at this level. -/
structure CollectionState where
  donations : ℚ
  collection_id : String
  royalty_amount : ℚ
  user_name : String
  user_slug : String
deriving DecidableEq, Repr

/-- `Collection::donate_mint` (`collection.rs` lines 128-181), step for step:
mint a record with `donated = 0` and empty `key_image_url`, then add
`tokens.amount()` and `royalty_amount` to `donated`, recompute
`key_image_url` under the current domain with the component's
`collection_id`, write both fields back, and deposit the payment into the
custody vault. `domain` is the `"domain"` metadata of the trophy resource
manager, `today` the current date from `generate_created_string`. Returns the
new trophy's id together with the updated component and store. -/
def donate_mint (c : CollectionState) (st : NFStore) (domain : String)
    (today : Date) (tokens : ℚ) : Nat × CollectionState × NFStore :=
  let data0 : TrophyData :=
    { name := c.user_name ++ "'s Trophy"
      info_url := domain ++ "/p/" ++ c.user_slug
      collection_id := c.collection_id
      created := today
      donated := 0
      key_image_url := "" }
  let (nft_id, st1) := st.mint data0
  let donated1 := data0.donated + tokens + c.royalty_amount
  let url := generate_url domain donated1 data0.created c.collection_id
  let st2 := st1.update nft_id (fun d => { d with donated := donated1 })
  let st3 := st2.update nft_id (fun d => { d with key_image_url := url })
  (nft_id, { c with donations := c.donations + tokens }, st3)

/-- `Collection::donate_update` (`collection.rs` lines 184-222): the presented
proof is checked against the trophy resource manager's address only — in this
embedding every id of the store designates a non-fungible of that one managed
resource, so a checked proof is exactly an id whose record exists (a missing
id aborts, `none`). The method adds `tokens.amount()` and `royalty_amount` to
the record's `donated`, recomputes `key_image_url` under the current domain
with the *component's* `collection_id` (`self.collection_id`), writes both
fields back, and deposits the payment. Nothing is minted and nothing is
returned. -/
def donate_update (c : CollectionState) (st : NFStore) (domain : String)
    (tokens : ℚ) (nft_id : Nat) : Option (CollectionState × NFStore) :=
  match st.lookup nft_id with
  | none => none
  | some data =>
    let donated1 := data.donated + tokens + c.royalty_amount
    let url := generate_url domain donated1 data.created c.collection_id
    let st1 := st.update nft_id (fun d => { d with donated := donated1 })
    let st2 := st1.update nft_id (fun d => { d with key_image_url := url })
    some ({ c with donations := c.donations + tokens }, st2)

/-- `Collection::withdraw_donations` (`collection.rs` lines 225-227): the body
itself just drains the custody vault. -/
def withdraw_donations (c : CollectionState) : ℚ × CollectionState :=
  (c.donations, { c with donations := 0 })

/-- The method-auth wrapper from `enable_method_auth!` (`collection.rs` lines
25-34): `withdraw_donations => restrict_to: [admin]`, where the `admin` role
requires the collection's admin badge. A caller without the badge is rejected
by the substrate before the body runs, aborting the transaction. -/
def call_withdraw_donations (callerHasAdminBadge : Bool) (c : CollectionState) :
    Except String (ℚ × CollectionState) :=
  if callerHasAdminBadge then .ok (withdraw_donations c)
  else .error "unauthorized"

/-- The per-id body of the loop in `Repository::update_base_path`
(`repository.rs` lines 170-188): reload the record (a missing id panics in
`get_non_fungible_data`, aborting), recompute `key_image_url` under the new
base path from the record's own `donated`/`created`/`collection_id`, and
write only that field back. -/
def update_base_path_loop (new_base_path : String) :
    NFStore → List Nat → Option NFStore
  | st, [] => some st
  | st, nft_id :: rest =>
    match st.lookup nft_id with
    | none => none
    | some data =>
      let url := generate_url new_base_path data.donated data.created
        data.collection_id
      update_base_path_loop new_base_path
        (st.update nft_id (fun d => { d with key_image_url := url })) rest

/-- `Repository::update_base_path` (`repository.rs` lines 162-189): set the
`"domain"` metadata to the new base path, then run the per-id refresh loop.
The result pairs the new domain metadata with the updated store; an abort in
the loop rolls the metadata write back too (whole-transaction rollback). -/
def update_base_path (st : NFStore) (new_base_path : String)
    (update_nft_ids : List Nat) : Option (String × NFStore) :=
  (update_base_path_loop new_base_path st update_nft_ids).map
    (fun st1 => (new_base_path, st1))

/-- One iteration of the loop in `Repository::merge_trophies`
(`repository.rs` lines 207-241): assert that the trophy matches the template
on `collection_id`, `info_url` and `name` (any mismatch aborts), keep the
running earliest date under strict chronological less-than, and accumulate
`donated`. -/
def merge_step (template : TrophyData) (acc : Date × ℚ) (t : TrophyData) :
    Option (Date × ℚ) :=
  if t.collection_id ≠ template.collection_id then none
  else if t.info_url ≠ template.info_url then none
  else if t.name ≠ template.name then none
  else
    let earliest := if Date.ltb t.created acc.1 then t.created else acc.1
    some (earliest, acc.2 + t.donated)

/-- The whole loop of `merge_trophies` over the bucket's trophy list. -/
def merge_fold (template : TrophyData) :
    Date × ℚ → List TrophyData → Option (Date × ℚ)
  | acc, [] => some acc
  | acc, t :: ts =>
    match merge_step template acc t with
    | none => none
    | some acc1 => merge_fold template acc1 ts

/-- The data computation of `Repository::merge_trophies` (`repository.rs`
lines 193-270) on the list of trophy data held by the bucket, in bucket
order: take the first element as template (an empty bucket panics at
`first().unwrap()`), initialize the running earliest date to the current time
(`now`) and the donation accumulator to `0`, run the loop over the whole
list, and build the replacement trophy from the template's identity fields,
the accumulated sum, the earliest date, and a freshly derived
`key_image_url` under the current domain. -/
def merge_trophies (domain : String) (now : Date) :
    List TrophyData → Option TrophyData
  | [] => none
  | template :: rest =>
    match merge_fold template (now, 0) (template :: rest) with
    | none => none
    | some (earliest, donated) =>
      some { name := template.name
             info_url := template.info_url
             collection_id := template.collection_id
             created := earliest
             donated := donated
             key_image_url := generate_url domain donated earliest
               template.collection_id }

/-- `Repository::merge_trophies` as a store transition. The bucket presented
by the caller holds the non-fungibles with ids `trophy_ids` (all of the
managed resource — the leading `assert_eq` on the resource address is
satisfied by construction in this embedding; an id absent from the store has
no data, aborting). On success the input records are burned
(`trophies.burn()`) and the single replacement is minted, its fresh id
returned. `none` is a transaction abort: no record is burned, none minted. -/
def merge_trophies_effect (st : NFStore) (domain : String) (now : Date)
    (trophy_ids : List Nat) : Option (Nat × NFStore) :=
  match trophy_ids.mapM st.lookup with
  | none => none
  | some trophies =>
    match merge_trophies domain now trophies with
    | none => none
    | some new_trophy_data =>
      let burned : NFStore :=
        { st with records :=
            st.records.filter (fun p => !(trophy_ids.contains p.1)) }
      some (burned.mint new_trophy_data)

/-- The sequence of claim C1: one `donate_mint` followed by a list of
`donate_update` calls, all on the record the mint returned. Each step
threads the component state and the store; an aborted update aborts the
run. -/
def run_updates (domain : String) (nft_id : Nat) :
    CollectionState × NFStore → List ℚ → Option (CollectionState × NFStore)
  | s, [] => some s
  | (c, st), p :: ps =>
    match donate_update c st domain p nft_id with
    | none => none
    | some s1 => run_updates domain nft_id s1 ps

/-! ### Order facts about the modelled chronological comparison -/

theorem Date.ltb_irrefl (a : Date) : a.ltb a = false := by
  simp [Date.ltb]

theorem Date.leb_refl (a : Date) : a.leb a = true := by
  simp [Date.leb, Date.ltb_irrefl]

theorem Date.ltb_asymm {a b : Date} (h : a.ltb b = true) : b.ltb a = false := by
  simp only [Date.ltb, decide_eq_true_eq, decide_eq_false_iff_not] at h ⊢
  omega

theorem Date.ltb_leb {a b : Date} (h : a.ltb b = true) : a.leb b = true := by
  simp only [Date.leb, Date.ltb_asymm h, Bool.not_false]

theorem Date.not_ltb_leb {a b : Date} (h : a.ltb b = false) : b.leb a = true := by
  simp only [Date.leb, h, Bool.not_false]

theorem Date.leb_trans {a b c : Date} (hab : a.leb b = true)
    (hbc : b.leb c = true) : a.leb c = true := by
  simp only [Date.leb, Date.ltb, Bool.not_eq_true', decide_eq_false_iff_not] at hab hbc ⊢
  omega

theorem Date.leb_antisymm {a b : Date} (hab : a.leb b = true)
    (hba : b.leb a = true) : a = b := by
  obtain ⟨ay, am, ad⟩ := a
  obtain ⟨by_, bm, bd⟩ := b
  simp only [Date.leb, Date.ltb, Bool.not_eq_true', decide_eq_false_iff_not] at hab hba
  simp only [Date.mk.injEq]
  omega

/-! ### Store lemmas -/

theorem NFStore.lookup_update (st : NFStore) (id k : Nat)
    (f : TrophyData → TrophyData) :
    (st.update id f).lookup k =
      if k = id then (st.lookup k).map f else st.lookup k := by
  obtain ⟨n, records⟩ := st
  simp only [NFStore.update, NFStore.lookup]
  rw [List.find?_map]
  have hcomp : ((fun p : Nat × TrophyData => decide (p.1 = k)) ∘
      fun p => if p.1 = id then (p.1, f p.2) else p) =
      fun p : Nat × TrophyData => decide (p.1 = k) := by
    funext p
    by_cases h : p.1 = id <;> simp [h]
  rw [hcomp]
  cases hf : List.find? (fun p : Nat × TrophyData => decide (p.1 = k)) records with
  | none => by_cases h : k = id <;> simp [h]
  | some a =>
    obtain ⟨i, d⟩ := a
    have hik : i = k := by simpa using List.find?_some hf
    subst hik
    by_cases h : i = id
    · simp [h]
    · simp [h, Ne.symm h]

theorem NFStore.lookup_update_self (st : NFStore) (id : Nat)
    (f : TrophyData → TrophyData) :
    (st.update id f).lookup id = (st.lookup id).map f := by
  simp [NFStore.lookup_update]

theorem NFStore.lookup_update_ne (st : NFStore) (id k : Nat)
    (f : TrophyData → TrophyData) (h : k ≠ id) :
    (st.update id f).lookup k = st.lookup k := by
  simp [NFStore.lookup_update, h]

theorem NFStore.update_nextId (st : NFStore) (id : Nat)
    (f : TrophyData → TrophyData) : (st.update id f).nextId = st.nextId := rfl

theorem NFStore.update_keys (st : NFStore) (id : Nat)
    (f : TrophyData → TrophyData) :
    (st.update id f).records.map Prod.fst = st.records.map Prod.fst := by
  simp only [NFStore.update, List.map_map]
  congr 1
  funext p
  by_cases h : p.1 = id <;> simp [h]

theorem NFStore.update_length (st : NFStore) (id : Nat)
    (f : TrophyData → TrophyData) :
    (st.update id f).records.length = st.records.length := by
  simp [NFStore.update]

theorem NFStore.lookup_mint_self (st : NFStore) (d : TrophyData)
    (hfresh : st.lookup st.nextId = none) :
    ((st.mint d).2).lookup st.nextId = some d := by
  simp only [NFStore.mint, NFStore.lookup, List.find?_append]
  simp only [NFStore.lookup] at hfresh
  obtain h := Option.map_eq_none.mp hfresh
  simp [h, List.find?]

theorem NFStore.lookup_mint_ne (st : NFStore) (d : TrophyData) (k : Nat)
    (h : k ≠ st.nextId) : ((st.mint d).2).lookup k = st.lookup k := by
  simp only [NFStore.mint, NFStore.lookup, List.find?_append]
  have : List.find? (fun p => p.1 = k) [(st.nextId, d)] = none := by
    simp [List.find?, Ne.symm h]
  cases hf : List.find? (fun p => p.1 = k) st.records <;> simp [this, hf]

/-! ### Characterization of donate_update -/

theorem donate_update_eq (c : CollectionState) (st : NFStore) (domain : String)
    (tokens : ℚ) (nft_id : Nat) (data : TrophyData)
    (h : st.lookup nft_id = some data) :
    donate_update c st domain tokens nft_id =
      some ({ c with donations := c.donations + tokens },
        (st.update nft_id
            (fun d => { d with donated := data.donated + tokens + c.royalty_amount })).update
          nft_id
          (fun d =>
            { d with
              key_image_url := generate_url domain
                (data.donated + tokens + c.royalty_amount) data.created
                c.collection_id })) := by
  simp [donate_update, h]

theorem donate_update_lookup_self (c : CollectionState) (st : NFStore)
    (domain : String) (tokens : ℚ) (nft_id : Nat) (data : TrophyData)
    (h : st.lookup nft_id = some data) :
    ∃ c1 st1, donate_update c st domain tokens nft_id = some (c1, st1) ∧
      c1 = { c with donations := c.donations + tokens } ∧
      st1.lookup nft_id =
        some { data with
               donated := data.donated + tokens + c.royalty_amount,
               key_image_url := generate_url domain
                 (data.donated + tokens + c.royalty_amount) data.created
                 c.collection_id } ∧
      st1.nextId = st.nextId ∧
      st1.records.map Prod.fst = st.records.map Prod.fst ∧
      st1.records.length = st.records.length ∧
      (∀ k, k ≠ nft_id → st1.lookup k = st.lookup k) := by
  refine ⟨_, _, donate_update_eq c st domain tokens nft_id data h, rfl, ?_, ?_, ?_, ?_, ?_⟩
  · rw [NFStore.lookup_update_self, NFStore.lookup_update_self, h]
    rfl
  · rfl
  · rw [NFStore.update_keys, NFStore.update_keys]
  · rw [NFStore.update_length, NFStore.update_length]
  · intro k hk
    rw [NFStore.lookup_update_ne _ _ _ _ hk, NFStore.lookup_update_ne _ _ _ _ hk]

/-! ### Merge loop lemmas -/

theorem merge_step_some {template : TrophyData} {acc : Date × ℚ}
    {t : TrophyData} {acc1 : Date × ℚ}
    (h : merge_step template acc t = some acc1) :
    t.collection_id = template.collection_id ∧
    t.info_url = template.info_url ∧
    t.name = template.name ∧
    acc1 = (if Date.ltb t.created acc.1 then t.created else acc.1,
      acc.2 + t.donated) := by
  by_cases h1 : t.collection_id = template.collection_id
  · by_cases h2 : t.info_url = template.info_url
    · by_cases h3 : t.name = template.name
      · refine ⟨h1, h2, h3, ?_⟩
        simp only [merge_step, h1, h2, h3] at h
        simp at h
        exact h.symm
      · simp [merge_step, h1, h2, h3] at h
    · simp [merge_step, h1, h2] at h
  · simp [merge_step, h1] at h

theorem merge_step_of_match {template : TrophyData} (acc : Date × ℚ)
    {t : TrophyData} (h1 : t.collection_id = template.collection_id)
    (h2 : t.info_url = template.info_url) (h3 : t.name = template.name) :
    merge_step template acc t =
      some (if Date.ltb t.created acc.1 then t.created else acc.1,
        acc.2 + t.donated) := by
  simp [merge_step, h1, h2, h3]

theorem merge_fold_matches {template : TrophyData} :
    ∀ (ts : List TrophyData) (acc res : Date × ℚ),
      merge_fold template acc ts = some res →
      ∀ u ∈ ts, u.collection_id = template.collection_id ∧
        u.info_url = template.info_url ∧ u.name = template.name
  | [], _, _, _ => by intro u hu; cases hu
  | t :: ts, acc, res, h => by
    intro u hu
    simp only [merge_fold] at h
    cases hstep : merge_step template acc t with
    | none => rw [hstep] at h; cases h
    | some acc1 =>
      rw [hstep] at h
      obtain ⟨h1, h2, h3, _⟩ := merge_step_some hstep
      cases hu with
      | head => exact ⟨h1, h2, h3⟩
      | tail _ hmem => exact merge_fold_matches ts acc1 res h u hmem

theorem merge_fold_sum {template : TrophyData} :
    ∀ (ts : List TrophyData) (acc res : Date × ℚ),
      merge_fold template acc ts = some res →
      res.2 = acc.2 + (ts.map TrophyData.donated).sum
  | [], acc, res, h => by
    simp only [merge_fold] at h
    cases h
    simp
  | t :: ts, acc, res, h => by
    simp only [merge_fold] at h
    cases hstep : merge_step template acc t with
    | none => rw [hstep] at h; cases h
    | some acc1 =>
      rw [hstep] at h
      obtain ⟨_, _, _, hacc⟩ := merge_step_some hstep
      have ih := merge_fold_sum ts acc1 res h
      subst hacc
      simp only [List.map_cons, List.sum_cons] at ih ⊢
      rw [ih]
      ring

theorem merge_fold_min {template : TrophyData} :
    ∀ (ts : List TrophyData) (acc res : Date × ℚ),
      merge_fold template acc ts = some res →
      (res.1 = acc.1 ∨ res.1 ∈ ts.map TrophyData.created) ∧
        res.1.leb acc.1 = true ∧
        ∀ u ∈ ts, res.1.leb u.created = true
  | [], acc, res, h => by
    simp only [merge_fold] at h
    cases h
    exact ⟨Or.inl rfl, Date.leb_refl _, by intro u hu; cases hu⟩
  | t :: ts, acc, res, h => by
    simp only [merge_fold] at h
    cases hstep : merge_step template acc t with
    | none => rw [hstep] at h; cases h
    | some acc1 =>
      rw [hstep] at h
      obtain ⟨_, _, _, hacc⟩ := merge_step_some hstep
      obtain ⟨hmem, hle, hall⟩ := merge_fold_min ts acc1 res h
      have hacc1 : acc1.1 = if Date.ltb t.created acc.1 then t.created
          else acc.1 := by rw [hacc]
      by_cases hlt : Date.ltb t.created acc.1 = true
      · rw [if_pos hlt] at hacc1
        refine ⟨?_, ?_, ?_⟩
        · rcases hmem with he | hm
          · exact Or.inr (by rw [he, hacc1]; exact List.mem_cons_self _ _)
          · exact Or.inr (List.mem_cons_of_mem _ hm)
        · exact Date.leb_trans (hacc1 ▸ hle) (Date.ltb_leb hlt)
        · intro u hu
          cases hu with
          | head => exact hacc1 ▸ hle
          | tail _ hm => exact hall u hm
      · rw [if_neg hlt] at hacc1
        refine ⟨?_, hacc1 ▸ hle, ?_⟩
        · rcases hmem with he | hm
          · exact Or.inl (by rw [he, hacc1])
          · exact Or.inr (List.mem_cons_of_mem _ hm)
        · intro u hu
          cases hu with
          | head =>
            exact Date.leb_trans (hacc1 ▸ hle)
              (Date.not_ltb_leb (Bool.not_eq_true _ ▸ hlt))
          | tail _ hm => exact hall u hm

/-! ### update_base_path loop lemmas -/

theorem update_base_path_loop_frame {nb : String} :
    ∀ (ids : List Nat) (st st' : NFStore),
      update_base_path_loop nb st ids = some st' →
      st'.nextId = st.nextId ∧
      st'.records.map Prod.fst = st.records.map Prod.fst ∧
      (∀ k, k ∉ ids → st'.lookup k = st.lookup k) ∧
      (∀ k d', st'.lookup k = some d' → ∃ d, st.lookup k = some d ∧
        d'.name = d.name ∧ d'.info_url = d.info_url ∧
        d'.collection_id = d.collection_id ∧ d'.created = d.created ∧
        d'.donated = d.donated)
  | [], st, st', h => by
    simp only [update_base_path_loop] at h
    cases h
    exact ⟨rfl, rfl, fun _ _ => rfl, fun k d' h' => ⟨d', h', rfl, rfl, rfl, rfl, rfl⟩⟩
  | id :: rest, st, st', h => by
    simp only [update_base_path_loop] at h
    cases hl : st.lookup id with
    | none => rw [hl] at h; cases h
    | some data =>
      rw [hl] at h
      set g : TrophyData → TrophyData := fun d =>
        { d with
          key_image_url := generate_url nb data.donated data.created
            data.collection_id } with hg
      obtain ⟨h1, h2, h3, h4⟩ :=
        update_base_path_loop_frame rest (st.update id g) st' h
      refine ⟨?_, ?_, ?_, ?_⟩
      · rw [h1, NFStore.update_nextId]
      · rw [h2, NFStore.update_keys]
      · intro k hk
        have hkid : k ≠ id := fun he => hk (he ▸ List.mem_cons_self _ _)
        have hkrest : k ∉ rest := fun hm => hk (List.mem_cons_of_mem _ hm)
        rw [h3 k hkrest, NFStore.lookup_update_ne _ _ _ _ hkid]
      · intro k d' h'
        obtain ⟨dmid, hmid, hn, hi, hc, hcr, hd⟩ := h4 k d' h'
        rw [NFStore.lookup_update] at hmid
        by_cases hkid : k = id
        · rw [if_pos hkid] at hmid
          obtain ⟨d0, hd0, hmap⟩ := Option.map_eq_some'.mp hmid
          refine ⟨d0, hd0, ?_⟩
          subst hmap
          exact ⟨hn, hi, hc, hcr, hd⟩
        · rw [if_neg hkid] at hmid
          exact ⟨dmid, hmid, hn, hi, hc, hcr, hd⟩

theorem update_base_path_loop_url {nb : String} :
    ∀ (ids : List Nat) (st st' : NFStore),
      update_base_path_loop nb st ids = some st' →
      ∀ k ∈ ids, ∀ d', st'.lookup k = some d' →
        d'.key_image_url = generate_url nb d'.donated d'.created
          d'.collection_id
  | [], _, _, _ => by intro k hk; cases hk
  | id :: rest, st, st', h => by
    intro k hk d' h'
    simp only [update_base_path_loop] at h
    cases hl : st.lookup id with
    | none => rw [hl] at h; cases h
    | some data =>
      rw [hl] at h
      by_cases hkrest : k ∈ rest
      · exact update_base_path_loop_url rest _ st' h k hkrest d' h'
      · have hkid : k = id := by
          cases hk with
          | head => rfl
          | tail _ hm => exact absurd hm hkrest
        subst hkid
        obtain ⟨_, _, h3, _⟩ := update_base_path_loop_frame rest _ st' h
        rw [h3 k hkrest, NFStore.lookup_update_self, hl] at h'
        cases h'
        rfl

theorem update_base_path_loop_total {nb : String} :
    ∀ (ids : List Nat) (st : NFStore),
      (∀ id ∈ ids, ∃ d, st.lookup id = some d) →
      ∃ st', update_base_path_loop nb st ids = some st'
  | [], st, _ => ⟨st, rfl⟩
  | id :: rest, st, hall => by
    obtain ⟨d, hd⟩ := hall id (List.mem_cons_self _ _)
    set g : TrophyData → TrophyData := fun e =>
      { e with
        key_image_url := generate_url nb d.donated d.created
          d.collection_id } with hg
    have hrest : ∀ i ∈ rest, ∃ e, (st.update id g).lookup i = some e := by
      intro i hi
      obtain ⟨e, he⟩ := hall i (List.mem_cons_of_mem _ hi)
      rw [NFStore.lookup_update]
      by_cases hik : i = id
      · exact ⟨g e, by rw [if_pos hik, he]; rfl⟩
      · exact ⟨e, by rw [if_neg hik, he]⟩
    obtain ⟨st', hst'⟩ := update_base_path_loop_total rest (st.update id g) hrest
    refine ⟨st', ?_⟩
    simp only [update_base_path_loop, hd]
    exact hst'

/-! ### Characterization of donate_mint and donation sequences -/

theorem donate_mint_spec (c : CollectionState) (st : NFStore) (domain : String)
    (today : Date) (tokens : ℚ) (hfresh : st.lookup st.nextId = none) :
    (donate_mint c st domain today tokens).1 = st.nextId ∧
    (donate_mint c st domain today tokens).2.1 =
      { c with donations := c.donations + tokens } ∧
    (donate_mint c st domain today tokens).2.2.nextId = st.nextId + 1 ∧
    (donate_mint c st domain today tokens).2.2.lookup st.nextId =
      some { name := c.user_name ++ "'s Trophy"
             info_url := domain ++ "/p/" ++ c.user_slug
             collection_id := c.collection_id
             created := today
             donated := 0 + tokens + c.royalty_amount
             key_image_url := generate_url domain
               (0 + tokens + c.royalty_amount) today c.collection_id } ∧
    (∀ k, k ≠ st.nextId →
      (donate_mint c st domain today tokens).2.2.lookup k = st.lookup k) := by
  refine ⟨rfl, rfl, rfl, ?_, ?_⟩
  · show ((((st.mint _).2.update st.nextId _).update st.nextId _).lookup st.nextId) = _
    rw [NFStore.lookup_update_self, NFStore.lookup_update_self]
    have := NFStore.lookup_mint_self st
      { name := c.user_name ++ "'s Trophy"
        info_url := domain ++ "/p/" ++ c.user_slug
        collection_id := c.collection_id
        created := today
        donated := 0
        key_image_url := "" } hfresh
    rw [this]
    rfl
  · intro k hk
    show ((((st.mint _).2.update st.nextId _).update st.nextId _).lookup k) = _
    rw [NFStore.lookup_update_ne _ _ _ _ hk, NFStore.lookup_update_ne _ _ _ _ hk,
      NFStore.lookup_mint_ne _ _ _ hk]

theorem run_updates_spec (domain : String) (id : Nat) :
    ∀ (ps : List ℚ) (c : CollectionState) (st : NFStore) (data : TrophyData),
      st.lookup id = some data →
      ∃ c' st' data', run_updates domain id (c, st) ps = some (c', st') ∧
        st'.lookup id = some data' ∧
        data'.donated = data.donated + ps.sum +
          c.royalty_amount * ps.length ∧
        c'.royalty_amount = c.royalty_amount
  | [], c, st, data, h => by
    refine ⟨c, st, data, rfl, h, ?_, rfl⟩
    simp
  | p :: ps, c, st, data, h => by
    obtain ⟨c1, st1, heq, hc1, hlook, _, _, _, _⟩ :=
      donate_update_lookup_self c st domain p id data h
    obtain ⟨c', st', data', hrun, hlook', hdon, hroy⟩ :=
      run_updates_spec domain id ps c1 st1 _ hlook
    refine ⟨c', st', data', ?_, hlook', ?_, ?_⟩
    · simp only [run_updates, heq]
      exact hrun
    · rw [hdon]
      subst hc1
      simp only [List.sum_cons, List.length_cons]
      push_cast
      ring
    · rw [hroy, hc1]

/-! ### generate_url distinguishes the collection id -/

theorem generate_url_cid_injective {b : String} {d : ℚ} {cr : Date}
    {c1 c2 : String} (h : generate_url b d cr c1 = generate_url b d cr c2) :
    c1 = c2 := by
  have hd := congrArg String.data h
  simp only [generate_url, String.data_append, List.append_assoc] at hd
  have h1 := List.append_cancel_left hd
  have h2 := List.append_cancel_left h1
  exact String.ext (List.append_cancel_right h2)

/-! ### The claims -/

/-- C1: for every sequence of one `donate_mint` followed by any number of
`donate_update` calls on the record the mint returned, with non-negative
payment amounts, the record's `donated` field after each step (i.e. for every
prefix, since the update list is arbitrary) equals the sum of all payment
amounts so far plus `royalty_amount` times the number of donation calls so
far. -/
theorem donation_sequence_donated_total (c : CollectionState) (st : NFStore)
    (domain : String) (today : Date) (p0 : ℚ) (ps : List ℚ)
    (hfresh : st.lookup st.nextId = none)
    (hpos : ∀ p ∈ p0 :: ps, 0 ≤ p) :
    ∃ c' st' data',
      run_updates domain (donate_mint c st domain today p0).1
        ((donate_mint c st domain today p0).2.1,
          (donate_mint c st domain today p0).2.2) ps = some (c', st') ∧
      st'.lookup (donate_mint c st domain today p0).1 = some data' ∧
      data'.donated = (p0 + ps.sum) +
        c.royalty_amount * (1 + ps.length) := by
  obtain ⟨hid, hc1, _, hlook, _⟩ :=
    donate_mint_spec c st domain today p0 hfresh
  rw [hid]
  obtain ⟨c', st', data', hrun, hlook', hdon, _⟩ :=
    run_updates_spec domain st.nextId ps
      (donate_mint c st domain today p0).2.1
      (donate_mint c st domain today p0).2.2 _ hlook
  refine ⟨c', st', data', hrun, hlook', ?_⟩
  rw [hdon, hc1]
  simp only
  ring

theorem donation_sequence_donated_total_witness :
    ∃ c' st' data',
      run_updates "https://x"
        (donate_mint
          { donations := 0, collection_id := "B", royalty_amount := 5,
            user_name := "alice", user_slug := "alice" }
          { nextId := 0, records := [] } "https://x" ⟨2024, 1, 10⟩ 100).1
        ((donate_mint
          { donations := 0, collection_id := "B", royalty_amount := 5,
            user_name := "alice", user_slug := "alice" }
          { nextId := 0, records := [] } "https://x" ⟨2024, 1, 10⟩ 100).2.1,
          (donate_mint
            { donations := 0, collection_id := "B", royalty_amount := 5,
              user_name := "alice", user_slug := "alice" }
            { nextId := 0, records := [] } "https://x" ⟨2024, 1, 10⟩ 100).2.2)
        [50] = some (c', st') ∧
      st'.lookup (donate_mint
        { donations := 0, collection_id := "B", royalty_amount := 5,
          user_name := "alice", user_slug := "alice" }
        { nextId := 0, records := [] } "https://x" ⟨2024, 1, 10⟩ 100).1 =
        some data' ∧
      data'.donated = 160 := by
  obtain ⟨c', st', data', h1, h2, h3⟩ :=
    donation_sequence_donated_total
      { donations := 0, collection_id := "B", royalty_amount := 5,
        user_name := "alice", user_slug := "alice" }
      { nextId := 0, records := [] } "https://x" ⟨2024, 1, 10⟩ 100 [50]
      rfl (by intro p hp; simp at hp; rcases hp with h | h <;> rw [h] <;> norm_num)
  refine ⟨c', st', data', h1, h2, ?_⟩
  rw [h3]
  norm_num

/-- C6: `donate_update` never mints a new record and returns nothing: with a
valid proof of an existing record, the total number of records (and the fresh
id counter, and the id sequence) is unchanged, the referenced record is still
stored under its id, every other record is untouched, and only the `donated`
and `key_image_url` fields of the referenced record change — `name`,
`info_url`, `collection_id` and `created` keep their pre-call values. -/
theorem donate_update_frame (c : CollectionState) (st : NFStore)
    (domain : String) (tokens : ℚ) (nft_id : Nat) (data : TrophyData)
    (h : st.lookup nft_id = some data) :
    ∃ c' st', donate_update c st domain tokens nft_id = some (c', st') ∧
      st'.nextId = st.nextId ∧
      st'.records.length = st.records.length ∧
      st'.records.map Prod.fst = st.records.map Prod.fst ∧
      (∀ k, k ≠ nft_id → st'.lookup k = st.lookup k) ∧
      ∃ data', st'.lookup nft_id = some data' ∧
        data'.name = data.name ∧ data'.info_url = data.info_url ∧
        data'.collection_id = data.collection_id ∧
        data'.created = data.created ∧
        data'.donated = data.donated + tokens + c.royalty_amount ∧
        data'.key_image_url = generate_url domain
          (data.donated + tokens + c.royalty_amount) data.created
          c.collection_id := by
  obtain ⟨c1, st1, heq, _, hlook, hnext, hkeys, hlen, hothers⟩ :=
    donate_update_lookup_self c st domain tokens nft_id data h
  exact ⟨c1, st1, heq, hnext, hlen, hkeys, hothers,
    _, hlook, rfl, rfl, rfl, rfl, rfl, rfl⟩

theorem donate_update_frame_witness :
    ∃ c' st', donate_update
        { donations := 0, collection_id := "B", royalty_amount := 5,
          user_name := "alice", user_slug := "alice" }
        { nextId := 1, records := [(0,
          { name := "n", info_url := "u", collection_id := "B",
            created := ⟨2024, 1, 10⟩, donated := 105,
            key_image_url := "" })] } "d" 50 0 = some (c', st') ∧
      st'.nextId = 1 ∧
      st'.records.length = 1 ∧
      st'.records.map Prod.fst = [0] ∧
      (∀ k, k ≠ 0 → st'.lookup k =
        NFStore.lookup { nextId := 1, records := [(0,
          { name := "n", info_url := "u", collection_id := "B",
            created := ⟨2024, 1, 10⟩, donated := 105,
            key_image_url := "" })] } k) ∧
      ∃ data', st'.lookup 0 = some data' ∧
        data'.name = "n" ∧ data'.info_url = "u" ∧
        data'.collection_id = "B" ∧ data'.created = ⟨2024, 1, 10⟩ ∧
        data'.donated = 160 ∧
        data'.key_image_url = generate_url "d" 160 ⟨2024, 1, 10⟩ "B" := by
  obtain ⟨c', st', heq, hnext, hlen, hkeys, hothers, data', hlook,
      hn, hi, hc, hcr, hd, hu⟩ :=
    donate_update_frame
      { donations := 0, collection_id := "B", royalty_amount := 5,
        user_name := "alice", user_slug := "alice" }
      { nextId := 1, records := [(0,
        { name := "n", info_url := "u", collection_id := "B",
          created := ⟨2024, 1, 10⟩, donated := 105,
          key_image_url := "" })] } "d" 50 0
      { name := "n", info_url := "u", collection_id := "B",
        created := ⟨2024, 1, 10⟩, donated := 105, key_image_url := "" }
      rfl
  have h160 : (105 : ℚ) + 50 + 5 = 160 := by norm_num
  refine ⟨c', st', heq, hnext, hlen, hkeys, hothers, data', hlook,
    hn, hi, hc, hcr, ?_, ?_⟩
  · rw [hd]; exact h160
  · rw [hu, h160]

/-- C9: `donate_update`'s proof check validates only the resource type, not
collection membership: a record of the managed trophy resource whose
`collection_id` differs from the Collection component's still updates
successfully — `payment + royalty` is added to its `donated`, its stored
`collection_id` is unchanged, and the freshly written `key_image_url` encodes
the component's `collection_id`, not the record's own (the two URLs differ). -/
theorem donate_update_cross_collection (c : CollectionState) (st : NFStore)
    (domain : String) (tokens : ℚ) (nft_id : Nat) (data : TrophyData)
    (h : st.lookup nft_id = some data)
    (hdiff : data.collection_id ≠ c.collection_id) :
    ∃ c' st' data', donate_update c st domain tokens nft_id = some (c', st') ∧
      st'.lookup nft_id = some data' ∧
      data'.donated = data.donated + tokens + c.royalty_amount ∧
      data'.collection_id = data.collection_id ∧
      data'.created = data.created ∧
      data'.key_image_url = generate_url domain data'.donated data'.created
        c.collection_id ∧
      data'.key_image_url ≠ generate_url domain data'.donated data'.created
        data'.collection_id := by
  obtain ⟨c1, st1, heq, _, hlook, _, _, _, _⟩ :=
    donate_update_lookup_self c st domain tokens nft_id data h
  refine ⟨c1, st1, _, heq, hlook, rfl, rfl, rfl, rfl, ?_⟩
  intro he
  exact hdiff (generate_url_cid_injective he).symm

theorem donate_update_cross_collection_witness :
    ∃ c' st' data', donate_update
        { donations := 0, collection_id := "B", royalty_amount := 5,
          user_name := "alice", user_slug := "alice" }
        { nextId := 1, records := [(0,
          { name := "n", info_url := "u", collection_id := "A",
            created := ⟨2024, 1, 10⟩, donated := 0,
            key_image_url := "" })] } "d" 1 0 = some (c', st') ∧
      st'.lookup 0 = some data' ∧
      data'.donated = 0 + 1 + 5 ∧
      data'.collection_id = "A" ∧
      data'.created = ⟨2024, 1, 10⟩ ∧
      data'.key_image_url = generate_url "d" data'.donated data'.created
        "B" ∧
      data'.key_image_url ≠ generate_url "d" data'.donated data'.created
        "A" := by
  obtain ⟨c', st', data', heq, hlook, hd, hc, hcr, hu, hne⟩ :=
    donate_update_cross_collection
      { donations := 0, collection_id := "B", royalty_amount := 5,
        user_name := "alice", user_slug := "alice" }
      { nextId := 1, records := [(0,
        { name := "n", info_url := "u", collection_id := "A",
          created := ⟨2024, 1, 10⟩, donated := 0,
          key_image_url := "" })] } "d" 1 0
      { name := "n", info_url := "u", collection_id := "A",
        created := ⟨2024, 1, 10⟩, donated := 0, key_image_url := "" }
      rfl (by decide)
  have hc' : data'.collection_id = "A" := hc
  rw [hc'] at hne
  exact ⟨c', st', data', heq, hlook, hd, hc', hcr, hu, hne⟩

/-- C7: `withdraw_donations` under the method-auth wrapper: called with the
admin badge it returns the entire custody vault balance in one step and
leaves the vault at zero (no partial withdrawal); called without the admin
badge it aborts (`.error`), and an aborted transaction leaves the vault
balance unchanged (rollback semantics of the substrate). -/
theorem withdraw_donations_admin_only (c : CollectionState) :
    call_withdraw_donations true c =
      .ok (c.donations, { c with donations := 0 }) ∧
    (withdraw_donations c).1 = c.donations ∧
    (withdraw_donations c).2.donations = 0 ∧
    call_withdraw_donations false c = .error "unauthorized" :=
  ⟨rfl, rfl, rfl, rfl⟩

/-- C10: `merge_trophies` on an empty bucket aborts (the extraction of the
first element as a template fails) before anything is burned or minted; the
abort (`none`) has no effect on any state. -/
theorem merge_trophies_empty_aborts (st : NFStore) (domain : String)
    (now : Date) :
    merge_trophies_effect st domain now [] = none ∧
    merge_trophies domain now [] = none :=
  ⟨rfl, rfl⟩

/-- C3: whenever `merge_trophies` succeeds (in particular for every non-empty
input set agreeing on `collection_id`, `info_url` and `name`), the single
output record's `donated` equals the exact sum of the `donated` fields of all
input records. -/
theorem merge_preserves_donated_sum (domain : String) (now : Date)
    (ts : List TrophyData) (out : TrophyData)
    (h : merge_trophies domain now ts = some out) :
    out.donated = (ts.map TrophyData.donated).sum := by
  cases ts with
  | nil => cases h
  | cons template rest =>
    simp only [merge_trophies] at h
    cases hf : merge_fold template (now, 0) (template :: rest) with
    | none => rw [hf] at h; cases h
    | some acc =>
      obtain ⟨e, d⟩ := acc
      rw [hf] at h
      cases h
      have hsum := merge_fold_sum (template :: rest) (now, 0) (e, d) hf
      simpa using hsum

theorem merge_preserves_donated_sum_witness :
    ∃ out, merge_trophies "d" ⟨2024, 5, 1⟩
        [{ name := "n", info_url := "u", collection_id := "A",
           created := ⟨2024, 1, 10⟩, donated := 105, key_image_url := "x" },
         { name := "n", info_url := "u", collection_id := "A",
           created := ⟨2024, 3, 2⟩, donated := 60, key_image_url := "y" }] =
      some out ∧
    out.donated = 165 := by
  cases hm : merge_trophies "d" ⟨2024, 5, 1⟩
      [{ name := "n", info_url := "u", collection_id := "A",
         created := ⟨2024, 1, 10⟩, donated := 105, key_image_url := "x" },
       { name := "n", info_url := "u", collection_id := "A",
         created := ⟨2024, 3, 2⟩, donated := 60, key_image_url := "y" }] with
  | none =>
    exfalso
    simp only [merge_trophies, merge_fold, merge_step, Date.ltb] at hm
    norm_num at hm
    exact Option.noConfusion hm
  | some out =>
    have := merge_preserves_donated_sum _ _ _ _ hm
    refine ⟨out, rfl, ?_⟩
    rw [this]
    norm_num

/-- C4: whenever `merge_trophies` succeeds on a non-empty input set whose
created dates do not postdate the current time, the merged record's `created`
equals the chronologically earliest created date among the inputs: it is one
of the input dates and is no later than each of them (the running minimum
uses the strict comparison `Date.ltb`, so equal dates never replace the value
already held). -/
theorem merge_earliest_date (domain : String) (now : Date)
    (ts : List TrophyData) (out : TrophyData)
    (h : merge_trophies domain now ts = some out)
    (hpast : ∀ t ∈ ts, t.created.leb now = true) :
    out.created ∈ ts.map TrophyData.created ∧
    ∀ t ∈ ts, out.created.leb t.created = true := by
  cases ts with
  | nil => cases h
  | cons template rest =>
    simp only [merge_trophies] at h
    cases hf : merge_fold template (now, 0) (template :: rest) with
    | none => rw [hf] at h; cases h
    | some acc =>
      obtain ⟨e, d⟩ := acc
      rw [hf] at h
      cases h
      obtain ⟨hmem, _, hall⟩ :=
        merge_fold_min (template :: rest) (now, 0) (e, d) hf
      refine ⟨?_, hall⟩
      rcases hmem with he | hm
      · have he' : e = now := he
        have h1 : e.leb template.created = true :=
          hall template (List.mem_cons_self _ _)
        have h2 := hpast template (List.mem_cons_self _ _)
        rw [← he'] at h2
        have he2 : e = template.created := Date.leb_antisymm h1 h2
        show e ∈ List.map TrophyData.created (template :: rest)
        rw [he2]
        exact List.mem_map_of_mem _ (List.mem_cons_self _ _)
      · exact hm

theorem merge_earliest_date_witness :
    ∃ out, merge_trophies "d" ⟨2024, 5, 1⟩
        [{ name := "n", info_url := "u", collection_id := "A",
           created := ⟨2024, 1, 10⟩, donated := 105, key_image_url := "x" },
         { name := "n", info_url := "u", collection_id := "A",
           created := ⟨2024, 3, 2⟩, donated := 60, key_image_url := "y" }] =
      some out ∧
    out.created = ⟨2024, 1, 10⟩ := by
  cases hm : merge_trophies "d" ⟨2024, 5, 1⟩
      [{ name := "n", info_url := "u", collection_id := "A",
         created := ⟨2024, 1, 10⟩, donated := 105, key_image_url := "x" },
       { name := "n", info_url := "u", collection_id := "A",
         created := ⟨2024, 3, 2⟩, donated := 60, key_image_url := "y" }] with
  | none =>
    exfalso
    simp only [merge_trophies, merge_fold, merge_step, Date.ltb] at hm
    norm_num at hm
    exact Option.noConfusion hm
  | some out =>
    obtain ⟨hmem, hle⟩ := merge_earliest_date _ _ _ _ hm (by decide)
    refine ⟨out, rfl, ?_⟩
    simp only [List.map_cons, List.map_nil, List.mem_cons,
      List.not_mem_nil, or_false] at hmem
    have h1 := hle _ (List.mem_cons_self _ _)
    rcases hmem with h | h
    · exact h
    · exfalso
      rw [h] at h1
      exact absurd h1 (by decide)

/-- C5: if the bucket passed to merge contains two records that differ in
`collection_id`, `info_url` or `name`, the merge aborts (`none`): the
transaction rolls back, so no input record is burned and no record is
minted. -/
theorem merge_rejects_mixed_inputs (st : NFStore) (domain : String)
    (now : Date) (ids : List Nat) (ts : List TrophyData)
    (hts : ids.mapM st.lookup = some ts)
    (hmix : ∃ t1 ∈ ts, ∃ t2 ∈ ts, t1.collection_id ≠ t2.collection_id ∨
      t1.info_url ≠ t2.info_url ∨ t1.name ≠ t2.name) :
    merge_trophies_effect st domain now ids = none := by
  simp only [merge_trophies_effect, hts]
  cases hm : merge_trophies domain now ts with
  | none => rfl
  | some out =>
    exfalso
    obtain ⟨t1, h1, t2, h2, hne⟩ := hmix
    cases ts with
    | nil => cases h1
    | cons template rest =>
      simp only [merge_trophies] at hm
      cases hf : merge_fold template (now, 0) (template :: rest) with
      | none => rw [hf] at hm; cases hm
      | some acc =>
        have hmatch := merge_fold_matches (template :: rest) (now, 0) acc hf
        obtain ⟨a1, b1, c1⟩ := hmatch t1 h1
        obtain ⟨a2, b2, c2⟩ := hmatch t2 h2
        rcases hne with hx | hx | hx
        · exact hx (a1.trans a2.symm)
        · exact hx (b1.trans b2.symm)
        · exact hx (c1.trans c2.symm)

theorem merge_rejects_mixed_inputs_witness :
    merge_trophies_effect
      { nextId := 2, records :=
        [(0, { name := "n", info_url := "u", collection_id := "A",
               created := ⟨2024, 1, 10⟩, donated := 105,
               key_image_url := "x" }),
         (1, { name := "n", info_url := "u", collection_id := "C",
               created := ⟨2024, 3, 2⟩, donated := 60,
               key_image_url := "y" })] }
      "d" ⟨2024, 5, 1⟩ [0, 1] = none := by
  refine merge_rejects_mixed_inputs _ "d" ⟨2024, 5, 1⟩ [0, 1]
    [{ name := "n", info_url := "u", collection_id := "A",
       created := ⟨2024, 1, 10⟩, donated := 105, key_image_url := "x" },
     { name := "n", info_url := "u", collection_id := "C",
       created := ⟨2024, 3, 2⟩, donated := 60, key_image_url := "y" }]
    rfl ?_
  refine ⟨_, List.mem_cons_self _ _,
    _, List.mem_cons_of_mem _ (List.mem_cons_self _ _), Or.inl ?_⟩
  decide

/-- C8: `update_base_path` succeeds whenever every listed id exists; it
rewrites the global base-path metadata to the new value and recomputes
`key_image_url` (under the new base path, from each record's own current
`donated`/`created`/`collection_id`) for exactly the listed ids: unlisted
records are completely unchanged, no field other than `key_image_url` of any
record changes, the id sequence and counter are untouched, and with an empty
id list the store is returned unchanged (only the base path changes). -/
theorem update_base_path_spec (st : NFStore) (nb : String) (ids : List Nat)
    (hall : ∀ id ∈ ids, ∃ d, st.lookup id = some d) :
    ∃ st', update_base_path st nb ids = some (nb, st') ∧
      st'.nextId = st.nextId ∧
      st'.records.map Prod.fst = st.records.map Prod.fst ∧
      (∀ k, k ∉ ids → st'.lookup k = st.lookup k) ∧
      (∀ k d', st'.lookup k = some d' → ∃ d, st.lookup k = some d ∧
        d'.name = d.name ∧ d'.info_url = d.info_url ∧
        d'.collection_id = d.collection_id ∧ d'.created = d.created ∧
        d'.donated = d.donated) ∧
      (∀ k ∈ ids, ∀ d', st'.lookup k = some d' →
        d'.key_image_url = generate_url nb d'.donated d'.created
          d'.collection_id) ∧
      (ids = [] → st' = st) := by
  obtain ⟨st', hst'⟩ := update_base_path_loop_total ids st hall
  obtain ⟨h1, h2, h3, h4⟩ := update_base_path_loop_frame ids st st' hst'
  refine ⟨st', ?_, h1, h2, h3, h4,
    update_base_path_loop_url ids st st' hst', ?_⟩
  · simp only [update_base_path, hst', Option.map]
  · intro he
    subst he
    simp only [update_base_path_loop] at hst'
    exact (Option.some.inj hst').symm

theorem update_base_path_spec_witness :
    ∃ st', update_base_path
        { nextId := 2, records :=
          [(0, { name := "n", info_url := "u", collection_id := "A",
                 created := ⟨2024, 1, 10⟩, donated := 105,
                 key_image_url := "old0" }),
           (1, { name := "n", info_url := "u", collection_id := "A",
                 created := ⟨2024, 3, 2⟩, donated := 60,
                 key_image_url := "old1" })] }
        "newbase" [0] = some ("newbase", st') ∧
      st'.nextId = 2 ∧
      (∀ k, k ∉ ([0] : List Nat) → st'.lookup k =
        NFStore.lookup
          { nextId := 2, records :=
            [(0, { name := "n", info_url := "u", collection_id := "A",
                   created := ⟨2024, 1, 10⟩, donated := 105,
                   key_image_url := "old0" }),
             (1, { name := "n", info_url := "u", collection_id := "A",
                   created := ⟨2024, 3, 2⟩, donated := 60,
                   key_image_url := "old1" })] } k) ∧
      (∀ k ∈ ([0] : List Nat), ∀ d', st'.lookup k = some d' →
        d'.key_image_url = generate_url "newbase" d'.donated d'.created
          d'.collection_id) := by
  obtain ⟨st', heq, hnext, _, hun, _, hurl, _⟩ :=
    update_base_path_spec
      { nextId := 2, records :=
        [(0, { name := "n", info_url := "u", collection_id := "A",
               created := ⟨2024, 1, 10⟩, donated := 105,
               key_image_url := "old0" }),
         (1, { name := "n", info_url := "u", collection_id := "A",
               created := ⟨2024, 3, 2⟩, donated := 60,
               key_image_url := "old1" })] }
      "newbase" [0]
      (by
        intro id hid
        simp only [List.mem_cons, List.not_mem_nil, or_false] at hid
        subst hid
        exact ⟨_, rfl⟩)
  exact ⟨st', heq, hnext, hun, hurl⟩

/-- C2 counterexample: `donate_update` may legally be applied (its only check
is the resource type) to a record whose `collection_id` differs from the
Collection component's; afterwards the record's `key_image_url` does NOT
equal the URL derivation at the record's own post-mutation `collection_id` —
it encodes the component's instead. Concrete instance: a record of collection
"A" updated through a component of collection "B". -/
theorem key_image_url_own_cid_counterexample :
    ∃ c' st' d', donate_update
        { donations := 0, collection_id := "B", royalty_amount := 5,
          user_name := "alice", user_slug := "alice" }
        { nextId := 1, records := [(0,
          { name := "n", info_url := "u", collection_id := "A",
            created := ⟨2024, 1, 10⟩, donated := 0,
            key_image_url := "" })] } "d" 1 0 = some (c', st') ∧
      st'.lookup 0 = some d' ∧
      d'.key_image_url ≠ generate_url "d" d'.donated d'.created
        d'.collection_id := by
  obtain ⟨c1, st1, heq, _, hlook, _, _, _, _⟩ :=
    donate_update_lookup_self
      { donations := 0, collection_id := "B", royalty_amount := 5,
        user_name := "alice", user_slug := "alice" }
      { nextId := 1, records := [(0,
        { name := "n", info_url := "u", collection_id := "A",
          created := ⟨2024, 1, 10⟩, donated := 0,
          key_image_url := "" })] } "d" 1 0
      { name := "n", info_url := "u", collection_id := "A",
        created := ⟨2024, 1, 10⟩, donated := 0, key_image_url := "" }
      rfl
  refine ⟨c1, st1, _, heq, hlook, ?_⟩
  intro he
  have : ("B" : String) = "A" := generate_url_cid_injective he
  exact absurd this (by decide)

/-- C2 (amended): after `donate_mint`, after `merge`, and after
`update_base_path` for a listed id, the record's `key_image_url` equals the
URL derivation applied to the applicable base path and the record's own
post-mutation `collection_id`, `donated` and `created`; after
`donate_update`, however, the written `key_image_url` encodes the
*Collection component's* `collection_id`, which coincides with the record's
own exactly when the record belongs to this collection — for records of a
foreign collection the invariant as originally stated fails (see the
counterexample). -/
theorem key_image_url_invariant_amended :
    (∀ (c : CollectionState) (st : NFStore) (domain : String) (today : Date)
      (tokens : ℚ), st.lookup st.nextId = none →
      ∀ d, (donate_mint c st domain today tokens).2.2.lookup
          (donate_mint c st domain today tokens).1 = some d →
        d.key_image_url = generate_url domain d.donated d.created
          d.collection_id) ∧
    (∀ (c : CollectionState) (st : NFStore) (domain : String) (tokens : ℚ)
      (nft_id : Nat) (data : TrophyData) (c' : CollectionState)
      (st' : NFStore), st.lookup nft_id = some data →
      donate_update c st domain tokens nft_id = some (c', st') →
      ∀ d', st'.lookup nft_id = some d' →
        d'.key_image_url = generate_url domain d'.donated d'.created
          c.collection_id ∧
        (data.collection_id = c.collection_id →
          d'.key_image_url = generate_url domain d'.donated d'.created
            d'.collection_id)) ∧
    (∀ (domain : String) (now : Date) (ts : List TrophyData)
      (out : TrophyData), merge_trophies domain now ts = some out →
      out.key_image_url = generate_url domain out.donated out.created
        out.collection_id) ∧
    (∀ (st : NFStore) (nb : String) (ids : List Nat)
      (res : String × NFStore), update_base_path st nb ids = some res →
      ∀ k ∈ ids, ∀ d', res.2.lookup k = some d' →
        d'.key_image_url = generate_url res.1 d'.donated d'.created
          d'.collection_id) := by
  refine ⟨?_, ?_, ?_, ?_⟩
  · intro c st domain today tokens hfresh d hd
    obtain ⟨hid, _, _, hlook, _⟩ :=
      donate_mint_spec c st domain today tokens hfresh
    rw [hid] at hd
    rw [hd] at hlook
    cases hlook
    rfl
  · intro c st domain tokens nft_id data c' st' h heq d' hd'
    obtain ⟨c1, st1, heq1, _, hlook, _, _, _, _⟩ :=
      donate_update_lookup_self c st domain tokens nft_id data h
    rw [heq1] at heq
    obtain ⟨-, hst⟩ := Prod.mk.injEq .. ▸ (Option.some.inj heq)
    subst hst
    rw [hd'] at hlook
    cases hlook
    exact ⟨rfl, fun hcc => by
      show generate_url domain _ _ c.collection_id = generate_url domain _ _ data.collection_id
      rw [hcc]⟩
  · intro domain now ts out h
    cases ts with
    | nil => cases h
    | cons template rest =>
      simp only [merge_trophies] at h
      cases hf : merge_fold template (now, 0) (template :: rest) with
      | none => rw [hf] at h; cases h
      | some acc =>
        obtain ⟨e, d⟩ := acc
        rw [hf] at h
        cases h
        rfl
  · intro st nb ids res heq k hk d' hd'
    simp only [update_base_path] at heq
    cases hst' : update_base_path_loop nb st ids with
    | none => rw [hst'] at heq; cases heq
    | some st1 =>
      rw [hst'] at heq
      simp only [Option.map] at heq
      cases heq
      exact update_base_path_loop_url ids st st1 hst' k hk d' hd'

theorem key_image_url_invariant_amended_witness :
    (∃ d, (donate_mint
        { donations := 0, collection_id := "B", royalty_amount := 5,
          user_name := "alice", user_slug := "alice" }
        { nextId := 0, records := [] } "d" ⟨2024, 1, 10⟩ 100).2.2.lookup
        (donate_mint
          { donations := 0, collection_id := "B", royalty_amount := 5,
            user_name := "alice", user_slug := "alice" }
          { nextId := 0, records := [] } "d" ⟨2024, 1, 10⟩ 100).1 = some d ∧
      d.key_image_url = generate_url "d" d.donated d.created
        d.collection_id) ∧
    (∃ c' st' d', donate_update
        { donations := 0, collection_id := "B", royalty_amount := 5,
          user_name := "alice", user_slug := "alice" }
        { nextId := 1, records := [(0,
          { name := "n", info_url := "u", collection_id := "B",
            created := ⟨2024, 1, 10⟩, donated := 105,
            key_image_url := "" })] } "d" 50 0 = some (c', st') ∧
      st'.lookup 0 = some d' ∧
      d'.key_image_url = generate_url "d" d'.donated d'.created
        d'.collection_id) ∧
    (∃ out, merge_trophies "d" ⟨2024, 5, 1⟩
        [{ name := "n", info_url := "u", collection_id := "A",
           created := ⟨2024, 1, 10⟩, donated := 105,
           key_image_url := "x" }] = some out ∧
      out.key_image_url = generate_url "d" out.donated out.created
        out.collection_id) ∧
    (∃ st', update_base_path
        { nextId := 1, records := [(0,
          { name := "n", info_url := "u", collection_id := "A",
            created := ⟨2024, 1, 10⟩, donated := 105,
            key_image_url := "old" })] } "nb" [0] = some ("nb", st') ∧
      ∃ d', st'.lookup 0 = some d' ∧
        d'.key_image_url = generate_url "nb" d'.donated d'.created
          d'.collection_id) := by
  refine ⟨?_, ?_, ?_, ?_⟩
  · obtain ⟨_, _, _, hlook, _⟩ :=
      donate_mint_spec
        { donations := 0, collection_id := "B", royalty_amount := 5,
          user_name := "alice", user_slug := "alice" }
        { nextId := 0, records := [] } "d" ⟨2024, 1, 10⟩ 100 rfl
    exact ⟨_, hlook,
      key_image_url_invariant_amended.1
        { donations := 0, collection_id := "B", royalty_amount := 5,
          user_name := "alice", user_slug := "alice" }
        { nextId := 0, records := [] } "d" ⟨2024, 1, 10⟩ 100 rfl _ hlook⟩
  · obtain ⟨c1, st1, heq, _, hlook, _, _, _, _⟩ :=
      donate_update_lookup_self
        { donations := 0, collection_id := "B", royalty_amount := 5,
          user_name := "alice", user_slug := "alice" }
        { nextId := 1, records := [(0,
          { name := "n", info_url := "u", collection_id := "B",
            created := ⟨2024, 1, 10⟩, donated := 105,
            key_image_url := "" })] } "d" 50 0
        { name := "n", info_url := "u", collection_id := "B",
          created := ⟨2024, 1, 10⟩, donated := 105, key_image_url := "" }
        rfl
    have := (key_image_url_invariant_amended.2.1
        { donations := 0, collection_id := "B", royalty_amount := 5,
          user_name := "alice", user_slug := "alice" }
        { nextId := 1, records := [(0,
          { name := "n", info_url := "u", collection_id := "B",
            created := ⟨2024, 1, 10⟩, donated := 105,
            key_image_url := "" })] } "d" 50 0
        { name := "n", info_url := "u", collection_id := "B",
          created := ⟨2024, 1, 10⟩, donated := 105, key_image_url := "" }
        c1 st1 rfl heq _ hlook).2 rfl
    exact ⟨c1, st1, _, heq, hlook, this⟩
  · cases hm : merge_trophies "d" ⟨2024, 5, 1⟩
        [{ name := "n", info_url := "u", collection_id := "A",
           created := ⟨2024, 1, 10⟩, donated := 105,
           key_image_url := "x" }] with
    | none =>
      exfalso
      simp only [merge_trophies, merge_fold, merge_step, Date.ltb] at hm
      norm_num at hm
      exact Option.noConfusion hm
    | some out =>
      exact ⟨out, rfl,
        key_image_url_invariant_amended.2.2.1 "d" ⟨2024, 5, 1⟩ _ out hm⟩
  · have heq : update_base_path
        { nextId := 1, records := [(0,
          { name := "n", info_url := "u", collection_id := "A",
            created := ⟨2024, 1, 10⟩, donated := 105,
            key_image_url := "old" })] } "nb" [0] =
        some ("nb", { nextId := 1, records := [(0,
          { name := "n", info_url := "u", collection_id := "A",
            created := ⟨2024, 1, 10⟩, donated := 105,
            key_image_url := generate_url "nb" 105 ⟨2024, 1, 10⟩ "A" })] }) :=
      rfl
    exact ⟨_, heq, _, rfl,
      key_image_url_invariant_amended.2.2.2
        { nextId := 1, records := [(0,
          { name := "n", info_url := "u", collection_id := "A",
            created := ⟨2024, 1, 10⟩, donated := 105,
            key_image_url := "old" })] } "nb" [0] _ heq 0
        (List.mem_cons_self _ _) _ rfl⟩
